import Mathlib

/-!
Verification of the flashcard application (`src/flashcard.py`).

The Python source is a Flask application backed by a relational store
(SQLAlchemy).  We embed the store as an explicit state (`DB`) holding the
`Deck` and `Card` rows together with the auto-increment counters, and each
route handler as a function on that state.  Fallible handlers (those that can
404 or abort) return `Option`; the import handler returns the response that
the route produces together with the resulting state.
-/

namespace Flashcard

/-- A `Card` row: `id` primary key, `question`, `answer`, `mastered`
(column default `False`), and the owning deck's id (`deck_id`). -/
structure Card where
  id : Nat
  question : String
  answer : String
  mastered : Bool
  deck_id : Nat
deriving DecidableEq

/-- A `Deck` row: `id` primary key and `name`. -/
structure Deck where
  id : Nat
  name : String
deriving DecidableEq

/-- The store: the two tables in insertion order plus the auto-increment
counters that hand out the next primary keys. -/
structure DB where
  decks : List Deck
  cards : List Card
  nextDeckId : Nat
  nextCardId : Nat
deriving DecidableEq

/-- A freshly created database (ids start at 1, as in SQL). -/
def emptyDB : DB := ⟨[], [], 1, 1⟩

/-- `Deck.query.get(deck_id)`: look a deck up by primary key. -/
def get_deck (s : DB) (did : Nat) : Option Deck :=
  s.decks.find? (fun d => d.id == did)

/-- `Card.query.get(card_id)`: look a card up by primary key. -/
def get_card (s : DB) (cid : Nat) : Option Card :=
  s.cards.find? (fun c => c.id == cid)

/-- `deck.cards`: the cards owned by deck `did`, in insertion order. -/
def deckCards (s : DB) (did : Nat) : List Card :=
  s.cards.filter (fun c => c.deck_id == did)

/-- Route `create_deck` (POST): insert `Deck(name=deck_name)` and commit.
Returns the new state and the id the store assigned. -/
def create_deck (name : String) (s : DB) : DB × Nat :=
  ({ s with decks := s.decks ++ [⟨s.nextDeckId, name⟩],
            nextDeckId := s.nextDeckId + 1 },
   s.nextDeckId)

/-- Route `add_card` (POST): 404 when the deck is absent, otherwise insert
`Card(question=..., answer=..., deck_id=deck_id)` (mastered defaults to
`False`) and commit. -/
def add_card (did : Nat) (q a : String) (s : DB) : Option (DB × Nat) :=
  (get_deck s did).map (fun _ =>
    ({ s with cards := s.cards ++ [⟨s.nextCardId, q, a, false, did⟩],
              nextCardId := s.nextCardId + 1 },
     s.nextCardId))

/-- Route `edit_card` (POST): 404 when the card is absent, otherwise update
its question and answer and commit. -/
def edit_card (cid : Nat) (q a : String) (s : DB) : Option DB :=
  (get_card s cid).map (fun _ =>
    { s with cards := s.cards.map (fun c =>
        if c.id == cid then { c with question := q, answer := a } else c) })

/-- The row update performed by `toggle_mastered`: flip the flag of the card
with primary key `cid`, leave every other row untouched. -/
def flipAt (cid : Nat) (c : Card) : Card :=
  if c.id == cid then { c with mastered := !c.mastered } else c

/-- Route `toggle_mastered` (POST): 404 when the card is absent, otherwise
`card.mastered = not card.mastered` and commit. -/
def toggle_mastered (cid : Nat) (s : DB) : Option DB :=
  (get_card s cid).map (fun _ => { s with cards := s.cards.map (flipAt cid) })

/-- Route `delete_deck` (POST): 404 when the deck is absent, otherwise delete
the deck row; the relationship's `cascade='all, delete-orphan'` also deletes
every card whose `deck_id` references it. -/
def delete_deck (did : Nat) (s : DB) : Option DB :=
  (get_deck s did).map (fun _ =>
    { s with decks := s.decks.filter (fun d => d.id != did),
             cards := s.cards.filter (fun c => c.deck_id != did) })

/-- Route `delete_card` (POST): 404 when the card is absent, otherwise delete
that card row. -/
def delete_card (cid : Nat) (s : DB) : Option DB :=
  (get_card s cid).map (fun _ =>
    { s with cards := s.cards.filter (fun c => c.id != cid) })

/-- `mastered_count` as computed by the `view_deck` route:
`sum(1 for card in deck.cards if card.mastered)`. -/
def mastered_count (s : DB) (did : Nat) : Nat :=
  (deckCards s did).foldl (fun n c => if c.mastered then n + 1 else n) 0

/-! ### The deck serializer -/

/-- One entry of the `cards` array of the export document: the card's
`question`, `answer` and `mastered` fields (all always present on export). -/
structure CardEntry where
  question : String
  answer : String
  mastered : Bool
deriving DecidableEq

/-- The export document built by `export_deck`: `deck_name` plus the `cards`
array in the deck's card order. -/
structure ExportDoc where
  deck_name : String
  cards : List CardEntry
deriving DecidableEq

/-- The (question, answer, mastered) triple of a stored card. -/
def cardTriple (c : Card) : CardEntry := ⟨c.question, c.answer, c.mastered⟩

/-- The suggested download filename built by `export_deck`:
`deck.name.replace(' ', '_') + ".json"` — each space character (and only
the space character) becomes an underscore. -/
def export_filename (name : String) : String :=
  ⟨name.data.map (fun c => if c == ' ' then '_' else c)⟩ ++ ".json"

/-- Route `export_deck`: 404 when the deck is absent, otherwise the export
document (name plus ordered card triples) together with the suggested
download filename. -/
def export_deck (did : Nat) (s : DB) : Option (ExportDoc × String) :=
  (get_deck s did).map (fun d =>
    (⟨d.name, (deckCards s did).map cardTriple⟩, export_filename d.name))

/-- A card entry of an uploaded document: each field may be absent
(a missing dictionary key in the parsed JSON object). -/
structure CardDoc where
  question : Option String
  answer : Option String
  mastered : Option Bool
deriving DecidableEq

/-- An uploaded deck document: `deck_name` and `cards` may each be absent. -/
structure DeckDoc where
  deck_name : Option String
  cards : Option (List CardDoc)
deriving DecidableEq

/-- The error raised inside the `import_deck` handler's `try` block:
a `KeyError` naming the missing dictionary key, or a JSON parse failure
(`json.load` raising).  The route reports it as the string
`"Error importing deck: ..."`. -/
inductive ImpError where
  | keyMissing (key : String)
  | parseFailure
deriving DecidableEq

/-- Reading the export document back as an uploaded document (serialising to
JSON and parsing again): every field is present. -/
def exportToDoc (e : ExportDoc) : DeckDoc :=
  ⟨some e.deck_name,
   some (e.cards.map (fun t => ⟨some t.question, some t.answer, some t.mastered⟩))⟩

/-- The card loop of the `import_deck` handler: for each entry read
`card_data['question']` then `card_data['answer']` (a missing key raises
`KeyError` and aborts the whole import at the first bad entry) and
`card_data.get('mastered', False)`. -/
def buildCards : List CardDoc → Except ImpError (List CardEntry)
  | [] => Except.ok []
  | c :: rest =>
    match c.question with
    | none => Except.error (ImpError.keyMissing "question")
    | some q =>
      match c.answer with
      | none => Except.error (ImpError.keyMissing "answer")
      | some a =>
        match buildCards rest with
        | Except.error e => Except.error e
        | Except.ok l => Except.ok (⟨q, a, c.mastered.getD false⟩ :: l)

/-- The store inserting the imported cards: consecutive fresh primary keys
starting at `k`, all owned by deck `did`. -/
def assignIds : List CardEntry → Nat → Nat → List Card
  | [], _, _ => []
  | t :: rest, k, did => ⟨k, t.question, t.answer, t.mastered, did⟩ :: assignIds rest (k + 1) did

/-- The `try` block of the `import_deck` handler: read `data['deck_name']`,
create the deck (flush hands out its id), read `data['cards']`, build one
card per entry, commit.  Any `KeyError` aborts; the transaction is then
rolled back, so an error leaves the store unchanged (the caller keeps the
pre-state). -/
def import_core (doc : DeckDoc) (s : DB) : Except ImpError (DB × Nat) :=
  match doc.deck_name with
  | none => Except.error (ImpError.keyMissing "deck_name")
  | some nm =>
    match doc.cards with
    | none => Except.error (ImpError.keyMissing "cards")
    | some cs =>
      match buildCards cs with
      | Except.error e => Except.error e
      | Except.ok l =>
        Except.ok
          ({ decks := s.decks ++ [⟨s.nextDeckId, nm⟩],
             cards := s.cards ++ assignIds l s.nextCardId s.nextDeckId,
             nextDeckId := s.nextDeckId + 1,
             nextCardId := s.nextCardId + l.length },
           s.nextDeckId)

/-- What the `import_deck` route returns to the caller. -/
inductive ImportResponse where
  | redirectToImportPage
  | redirectToDecks
  | errorMessage (e : ImpError)
  | renderForm
deriving DecidableEq

/-- Whether a response reports a failure to the caller (only the
`"Error importing deck: ..."` page does). -/
def isFailureResponse : ImportResponse → Bool
  | ImportResponse.errorMessage _ => true
  | _ => false

/-- Python `str.endswith` for a plain suffix (models
`file.filename.endswith('.json')`). -/
def endsWithStr (s suf : String) : Bool :=
  s.data.drop (s.data.length - suf.data.length) == suf.data

/-- Route `import_deck` (POST).  The request carries the uploaded file part,
when present, as its filename together with its parsed content (`none` when
`json.load` would fail).  A missing part or an empty filename redirects back
to the import page; a filename not ending in `'.json'` falls through to
re-rendering the form; otherwise the `try` block runs and either commits and
redirects to the deck list or reports the error message. -/
def import_route (req : Option (String × Option DeckDoc)) (s : DB) :
    ImportResponse × DB :=
  match req with
  | none => (ImportResponse.redirectToImportPage, s)
  | some (fn, content) =>
    if fn = "" then (ImportResponse.redirectToImportPage, s)
    else if endsWithStr fn ".json" then
      match content with
      | none => (ImportResponse.errorMessage ImpError.parseFailure, s)
      | some doc =>
        match import_core doc s with
        | Except.ok (s', _) => (ImportResponse.redirectToDecks, s')
        | Except.error e => (ImportResponse.errorMessage e, s)
    else (ImportResponse.renderForm, s)

/-! ### Deck listing with a search filter -/

/-- All non-empty suffixes of a list followed by the empty one (the
positions at which a pattern may be anchored). -/
def suffixes {α : Type} : List α → List (List α)
  | [] => [[]]
  | a :: t => (a :: t) :: suffixes t

/-- SQL `LIKE`/`ILIKE` pattern matching (no escape character): `%` matches
any sequence, `_` matches exactly one character, any other pattern
character matches itself case-insensitively (`ILIKE`). -/
def likeMatch : List Char → List Char → Bool
  | [], t => t.isEmpty
  | p :: ps, t =>
    if p = '%' then (suffixes t).any (fun u => likeMatch ps u)
    else
      match t with
      | [] => false
      | c :: cs => (p == '_' || p.toLower == c.toLower) && likeMatch ps cs

/-- Case-insensitive equality of a pattern with a leading block of the text:
does `n` match the first `n.length` characters of `t`? -/
def ciStarts : List Char → List Char → Bool
  | [], _ => true
  | _ :: _, [] => false
  | a :: as, b :: bs => (a.toLower == b.toLower) && ciStarts as bs

/-- Case-insensitive substring containment (the spec's reading of the deck
filter): `n` occurs contiguously in `hay` up to character case. -/
def ciSub (n : List Char) (hay : List Char) : Bool :=
  (suffixes hay).any (fun u => ciStarts n u)

/-- Route `decks`: with a non-empty `search` query parameter the decks
matching `Deck.name.ilike('%' + search + '%')`, otherwise all decks
(`request.args.get('search', '')` is falsy when empty or absent). -/
def decksRoute (s : DB) (q : String) : List Deck :=
  if q = "" then s.decks
  else s.decks.filter (fun d => likeMatch ('%' :: (q.data ++ ['%'])) d.name.data)

/-! ### The study selector -/

/-- Modelled from the spec: the study-sequence selection is implemented in
the `study.html` template, which is not part of the Python source (the
`study` route only forwards the deck and the two flags to it).  Following
§4.2: start from the deck's card collection; when `onlyUnmastered` is set
keep only the cards whose `mastered` flag is false, as a stable
subsequence; when `shuffle` is set apply the injected permutation to the
filtered sequence, otherwise keep the original order. -/
def selectStudySequence (cards : List Card) (shuffleFn : List Card → List Card)
    (shuffle onlyUnmastered : Bool) : List Card :=
  let base := if onlyUnmastered then cards.filter (fun c => !c.mastered) else cards
  if shuffle then shuffleFn base else base

/-! ### Reachable store states -/

/-- One externally invocable state-changing operation (the POST routes). -/
inductive Op where
  | createDeck (name : String)
  | addCard (did : Nat) (q a : String)
  | editCard (cid : Nat) (q a : String)
  | toggleMastered (cid : Nat)
  | deleteDeck (did : Nat)
  | deleteCard (cid : Nat)
  | importReq (req : Option (String × Option DeckDoc))

/-- Running one operation against the store; a 404 leaves the state as it
was (the handler aborts before any write). -/
def applyOp (op : Op) (s : DB) : DB :=
  match op with
  | Op.createDeck n => (create_deck n s).1
  | Op.addCard did q a => match add_card did q a s with | some p => p.1 | none => s
  | Op.editCard cid q a => match edit_card cid q a s with | some t => t | none => s
  | Op.toggleMastered cid => match toggle_mastered cid s with | some t => t | none => s
  | Op.deleteDeck did => match delete_deck did s with | some t => t | none => s
  | Op.deleteCard cid => match delete_card cid s with | some t => t | none => s
  | Op.importReq req => (import_route req s).2

/-- The store states reachable from the fresh database through the routes. -/
inductive Reachable : DB → Prop where
  | init : Reachable emptyDB
  | step (op : Op) {s : DB} : Reachable s → Reachable (applyOp op s)

/-- Well-formedness of a store state: primary keys are below the
auto-increment counters and duplicate-free, and every card's `deck_id`
references an existing deck (no orphans). -/
structure WfDB (s : DB) : Prop where
  deckIdsLt : ∀ d ∈ s.decks, d.id < s.nextDeckId
  cardIdsLt : ∀ c ∈ s.cards, c.id < s.nextCardId
  ownerLives : ∀ c ∈ s.cards, ∃ d ∈ s.decks, d.id = c.deck_id
  deckIdsNodup : (s.decks.map Deck.id).Nodup
  cardIdsNodup : (s.cards.map Card.id).Nodup

/-! ### Spec-side definitions (used to compare the code with the claims) -/

/-- Did `import_core` succeed? -/
def isOkB {ε α : Type} : Except ε α → Bool
  | Except.ok _ => true
  | Except.error _ => false

/-- The acceptance condition the code actually enforces on an uploaded
document: the keys `deck_name` and `cards` and, per card, `question` and
`answer` must be present; emptiness is never checked. -/
def docAccepted (doc : DeckDoc) : Bool :=
  doc.deck_name.isSome &&
    match doc.cards with
    | none => false
    | some cs => cs.all (fun c => c.question.isSome && c.answer.isSome)

/-- The acceptance condition stated by the claim: `deck_name` present and
non-empty, `cards` present, and every entry with a non-empty `question`
and a non-empty `answer`. -/
def specAccepted (doc : DeckDoc) : Bool :=
  (match doc.deck_name with | some n => n != "" | none => false) &&
    match doc.cards with
    | none => false
    | some cs => cs.all (fun c =>
        (match c.question with | some q => q != "" | none => false) &&
        (match c.answer with | some a => a != "" | none => false))

/-- Whitespace characters in the sense of the claim (Python
`str.isspace` on ASCII text). -/
def isWsChar (c : Char) : Bool :=
  c == ' ' || c == '\t' || c == '\n' || c == '\r' || c == '\x0b' || c == '\x0c'

/-- The download filename as the claim states it: every whitespace
character of the deck name replaced by an underscore, then `".json"`. -/
def specWsFilename (name : String) : String :=
  ⟨name.data.map (fun c => if isWsChar c then '_' else c)⟩ ++ ".json"

/-! ### Concrete states used by witnesses and counterexamples -/

/-- A small store: one deck "Spanish" with one mastered card. -/
def dbW : DB := ⟨[⟨1, "Spanish"⟩], [⟨1, "hola", "hello", true, 1⟩], 2, 2⟩

/-- A deck list used to exercise the search filter. -/
def dbFilterW : DB := ⟨[⟨1, "Greek"⟩, ⟨2, "Spanish"⟩], [], 3, 1⟩

/-- A single deck whose name contains an unmatchable underscore probe. -/
def dbFilterCex : DB := ⟨[⟨1, "ab"⟩], [], 2, 1⟩

/-- A single deck whose name contains a tab character. -/
def dbTabCex : DB := ⟨[⟨1, "a\tb"⟩], [], 2, 1⟩

/-- Cards used to exercise the study selector. -/
def cardsStudyW : List Card := [⟨1, "q", "a", true, 1⟩, ⟨2, "r", "b", false, 1⟩]

/-! ## Helper lemmas -/

theorem foldl_masteredCount (l : List Card) :
    ∀ n : Nat, l.foldl (fun n c => if c.mastered then n + 1 else n) n =
      n + l.countP (fun c => c.mastered) := by
  induction l with
  | nil => intro n; simp
  | cons c t ih =>
    intro n
    rw [List.foldl_cons, List.countP_cons]
    by_cases h : c.mastered
    · rw [if_pos h, ih, if_pos h]; omega
    · rw [if_neg h, ih, if_neg h]; omega

theorem flipAt_id (cid : Nat) (c : Card) : (flipAt cid c).id = c.id := by
  unfold flipAt; split <;> rfl

theorem flipAt_deck (cid : Nat) (c : Card) : (flipAt cid c).deck_id = c.deck_id := by
  unfold flipAt; split <;> rfl

theorem find?_map_flip (cid k : Nat) (l : List Card) :
    (l.map (flipAt cid)).find? (fun c => c.id == k) =
      (l.find? (fun c => c.id == k)).map (flipAt cid) := by
  induction l with
  | nil => rfl
  | cons c t ih =>
    rw [List.map_cons]
    by_cases h : (c.id == k) = true
    · have h' : ((flipAt cid c).id == k) = true := by rw [flipAt_id]; exact h
      rw [@List.find?_cons_of_pos _ (fun x => x.id == k) (flipAt cid c)
          (t.map (flipAt cid)) h',
        @List.find?_cons_of_pos _ (fun x => x.id == k) c t h, Option.map_some']
    · have h' : ¬ ((flipAt cid c).id == k) = true := by rw [flipAt_id]; exact h
      rw [@List.find?_cons_of_neg _ (fun x => x.id == k) (flipAt cid c)
          (t.map (flipAt cid)) h',
        @List.find?_cons_of_neg _ (fun x => x.id == k) c t h, ih]

theorem map_map_id_eq {f : Card → Card} (hid : ∀ c, (f c).id = c.id) :
    ∀ l : List Card, (l.map f).map Card.id = l.map Card.id := by
  intro l
  induction l with
  | nil => rfl
  | cons a t ih => simp [hid, ih]

theorem map_congr_mem {α β : Type} {f g : α → β} :
    ∀ l : List α, (∀ a ∈ l, f a = g a) → l.map f = l.map g := by
  intro l
  induction l with
  | nil => intro _; rfl
  | cons a t ih =>
    intro h
    rw [List.map_cons, List.map_cons, h a (List.mem_cons_self a t),
      ih (fun x hx => h x (List.mem_cons_of_mem a hx))]

theorem buildCards_isOk : ∀ cs : List CardDoc,
    isOkB (buildCards cs) = cs.all (fun c => c.question.isSome && c.answer.isSome) := by
  intro cs
  induction cs with
  | nil => rfl
  | cons c t ih =>
    cases hq : c.question with
    | none => simp [buildCards, hq, isOkB]
    | some q =>
      cases ha : c.answer with
      | none => simp [buildCards, hq, ha, isOkB]
      | some a =>
        cases hb : buildCards t with
        | error e => rw [hb] at ih; simp [buildCards, hq, ha, hb, isOkB] at ih ⊢; exact ih
        | ok l => rw [hb] at ih; simp [buildCards, hq, ha, hb, isOkB] at ih ⊢; exact ih

/-! ## Claim C6 -/

/-- Claim C6: for every deck, `mastered_count` (the sum the `view_deck`
route computes) equals the number of cards in the deck's card collection
whose `mastered` flag is true. -/
theorem C6_mastered_count (s : DB) (did : Nat) :
    mastered_count s did = (deckCards s did).countP (fun c => c.mastered) := by
  unfold mastered_count
  simpa using foldl_masteredCount (deckCards s did) 0

/-- Witness for C6 on a concrete store. -/
theorem C6_mastered_count_witness :
    mastered_count dbW 1 = (deckCards dbW 1).countP (fun c => c.mastered) :=
  C6_mastered_count dbW 1

/-! ## Claim C10 -/

/-- Claim C10: toggling the mastered flag of an existing card negates
exactly that flag: the card keeps its question, answer and owning deck,
every other card lookup is unchanged, and the decks table and the id
counters are untouched. -/
theorem C10_toggle_frame (s : DB) (cid : Nat) (c : Card)
    (h : get_card s cid = some c) :
    ∃ s', toggle_mastered cid s = some s' ∧
      get_card s' cid = some { c with mastered := !c.mastered } ∧
      (∀ k, k ≠ cid → get_card s' k = get_card s k) ∧
      s'.decks = s.decks ∧
      s'.cards.map Card.id = s.cards.map Card.id ∧
      s'.nextDeckId = s.nextDeckId ∧ s'.nextCardId = s.nextCardId := by
  refine ⟨{ s with cards := s.cards.map (flipAt cid) }, ?_, ?_, ?_, rfl, ?_, rfl, rfl⟩
  · unfold toggle_mastered; rw [h]; rfl
  · show (s.cards.map (flipAt cid)).find? (fun c => c.id == cid) = _
    rw [find?_map_flip]
    unfold get_card at h
    rw [h, Option.map_some']
    have hc : (c.id == cid) = true :=
      @List.find?_some _ (fun x => x.id == cid) c s.cards h
    simp [flipAt, hc]
  · intro k hk
    show (s.cards.map (flipAt cid)).find? (fun c => c.id == k) = get_card s k
    rw [find?_map_flip]
    unfold get_card
    cases hf : s.cards.find? (fun c => c.id == k) with
    | none => rfl
    | some c' =>
      have hck : c'.id = k := by
        simpa using @List.find?_some _ (fun x => x.id == k) c' s.cards hf
      have hne : (c'.id == cid) = false := by
        rw [beq_eq_false_iff_ne, hck]; exact hk
      simp [flipAt, hne]
  · exact map_map_id_eq (flipAt_id cid) s.cards

/-- Witness for C10: toggling the mastered card of `dbW`. -/
theorem C10_toggle_frame_witness :
    ∃ s', toggle_mastered 1 dbW = some s' ∧
      get_card s' 1 = some ⟨1, "hola", "hello", false, 1⟩ ∧
      (∀ k, k ≠ 1 → get_card s' k = get_card dbW k) ∧
      s'.decks = dbW.decks ∧
      s'.cards.map Card.id = dbW.cards.map Card.id ∧
      s'.nextDeckId = dbW.nextDeckId ∧ s'.nextCardId = dbW.nextCardId :=
  C10_toggle_frame dbW 1 ⟨1, "hola", "hello", true, 1⟩ rfl

/-! ## Claim C5 -/

/-- Claim C5 (spec-modelled, the selection runs in the `study.html`
template): with shuffling off and the unmastered-only flag on, the study
sequence is exactly the unmastered cards of the deck in their original
relative order — a sublist of the deck order that contains only unmastered
cards and is maximal among such sublists. -/
theorem C5_study_unmastered (cards : List Card) (shuffleFn : List Card → List Card) :
    (selectStudySequence cards shuffleFn false true).Sublist cards ∧
    (∀ c ∈ selectStudySequence cards shuffleFn false true, c.mastered = false) ∧
    (∀ l : List Card, l.Sublist cards → (∀ c ∈ l, c.mastered = false) →
      l.Sublist (selectStudySequence cards shuffleFn false true)) := by
  have hsel : selectStudySequence cards shuffleFn false true =
      cards.filter (fun c => !c.mastered) := rfl
  rw [hsel]
  refine ⟨List.filter_sublist cards, ?_, ?_⟩
  · intro c hc
    have := (List.mem_filter.mp hc).2
    simpa using this
  · intro l hl hall
    have hsame : l.filter (fun c => !c.mastered) = l :=
      List.filter_eq_self.mpr (fun a ha => by simp [hall a ha])
    have h2 := List.Sublist.filter (fun c => !c.mastered) hl
    rwa [hsame] at h2

/-- Witness for C5: the unmastered card of a two-card deck is selected. -/
theorem C5_study_unmastered_witness :
    ([⟨2, "r", "b", false, 1⟩] : List Card).Sublist
      (selectStudySequence cardsStudyW id false true) :=
  (C5_study_unmastered cardsStudyW id).2.2 [⟨2, "r", "b", false, 1⟩]
    (by decide) (by decide)

/-! ## Claim C9 -/

/-- Counterexample to C9 as stated: for a deck named `"a\tb"` the code
suggests the filename `"a\tb.json"` (only spaces are replaced), while the
claim's whitespace rule would give `"a_b.json"`. -/
theorem C9_filename_cex :
    (export_deck 1 dbTabCex).map Prod.snd = some "a\tb.json" ∧
    specWsFilename "a\tb" = "a_b.json" ∧
    ("a\tb.json" : String) ≠ "a_b.json" := by
  refine ⟨rfl, rfl, by decide⟩

/-- Claim C9 amended: the suggested filename replaces every space
character (U+0020) of the deck name — not every whitespace character — by
an underscore and appends `".json"`; for names whose whitespace is only
spaces this agrees with the claim's rule. -/
theorem C9_filename_amended (s : DB) (did : Nat) (d : Deck)
    (hd : get_deck s did = some d)
    (hw : ∀ c ∈ d.name.data, isWsChar c = true → c = ' ') :
    (export_deck did s).map Prod.snd = some (specWsFilename d.name) := by
  unfold export_deck
  rw [hd, Option.map_some', Option.map_some']
  show some (export_filename d.name) = _
  unfold export_filename specWsFilename
  have : d.name.data.map (fun c => if c == ' ' then '_' else c) =
      d.name.data.map (fun c => if isWsChar c then '_' else c) := by
    apply map_congr_mem
    intro a ha
    by_cases hws : isWsChar a = true
    · have : a = ' ' := hw a ha hws
      subst this
      simp [isWsChar]
    · have hna : (a == ' ') = false := by
        rw [beq_eq_false_iff_ne]
        intro hsp
        subst hsp
        simp [isWsChar] at hws
      simp [hna, hws]
  rw [this]

/-- Witness for C9 amended: a space-separated deck name. -/
theorem C9_filename_amended_witness :
    (export_deck 1 (⟨[⟨1, "my deck"⟩], [], 2, 1⟩ : DB)).map Prod.snd =
      some (specWsFilename "my deck") :=
  C9_filename_amended ⟨[⟨1, "my deck"⟩], [], 2, 1⟩ 1 ⟨1, "my deck"⟩ rfl (by decide)

/-! ## Claim C3 -/

/-- Counterexample to C3 as stated: a document whose `deck_name` is the
empty string and whose only card has empty question and answer is accepted
by the import code (it creates the deck), although the claim requires a
`ValidationError` for it. -/
theorem C3_validation_cex :
    isOkB (import_core ⟨some "", some [⟨some "", some "", none⟩]⟩ emptyDB) = true ∧
    specAccepted ⟨some "", some [⟨some "", some "", none⟩]⟩ = false :=
  ⟨rfl, rfl⟩

/-- Claim C3 amended: the import accepts a document exactly when the
`deck_name` and `cards` keys are present and every card entry has the
`question` and `answer` keys — presence only, non-emptiness is never
checked — and a card entry without a `mastered` key is imported with
`mastered = false`. -/
theorem C3_validation_amended :
    (∀ (doc : DeckDoc) (s : DB), isOkB (import_core doc s) = docAccepted doc) ∧
    (∀ cs : List CardDoc, (∀ c ∈ cs, c.question.isSome ∧ c.answer.isSome) →
      buildCards cs = Except.ok (cs.map (fun c =>
        ⟨c.question.getD "", c.answer.getD "", c.mastered.getD false⟩))) := by
  constructor
  · intro doc s
    cases hnm : doc.deck_name with
    | none => simp [import_core, docAccepted, hnm, isOkB]
    | some nm =>
      cases hcs : doc.cards with
      | none => simp [import_core, docAccepted, hnm, hcs, isOkB]
      | some cs =>
        have hb := buildCards_isOk cs
        cases hbc : buildCards cs with
        | error e =>
          rw [hbc] at hb
          simp [import_core, docAccepted, hnm, hcs, hbc, isOkB] at hb ⊢
          exact hb
        | ok l =>
          rw [hbc] at hb
          simp [import_core, docAccepted, hnm, hcs, hbc, isOkB] at hb ⊢
          exact hb
  · intro cs
    induction cs with
    | nil => intro _; rfl
    | cons c t ih =>
      intro h
      obtain ⟨hq, ha⟩ := h c (List.mem_cons_self c t)
      obtain ⟨q, hq'⟩ := Option.isSome_iff_exists.mp hq
      obtain ⟨a, ha'⟩ := Option.isSome_iff_exists.mp ha
      have ht := ih (fun x hx => h x (List.mem_cons_of_mem c hx))
      simp [buildCards, hq', ha', ht]

/-- Witness for C3 amended: an entry with both keys and no `mastered` key
is imported with the mastered flag defaulted to false. -/
theorem C3_validation_amended_witness :
    buildCards [⟨some "q", some "a", none⟩] = Except.ok [⟨"q", "a", false⟩] := by
  have h := C3_validation_amended.2 [⟨some "q", some "a", none⟩] (by decide)
  simpa using h

/-! ## Claim C7 -/

theorem any_suffixes_nil_pat : ∀ t : List Char,
    (suffixes t).any (fun u => likeMatch [] u) = true := by
  intro t
  induction t with
  | nil => rfl
  | cons a t ih => simp only [suffixes, List.any_cons, ih, Bool.or_true]

theorem likeMatch_plain_percent :
    ∀ n : List Char, (∀ c ∈ n, c ≠ '%' ∧ c ≠ '_') →
      ∀ t : List Char, likeMatch (n ++ ['%']) t = ciStarts n t := by
  intro n
  induction n with
  | nil =>
    intro _ t
    show likeMatch ['%'] t = true
    unfold likeMatch
    rw [if_pos rfl]
    exact any_suffixes_nil_pat t
  | cons a n ih =>
    intro h t
    obtain ⟨ha1, ha2⟩ := h a (List.mem_cons_self a n)
    have hrest := ih (fun x hx => h x (List.mem_cons_of_mem a hx))
    cases t with
    | nil =>
      show likeMatch (a :: (n ++ ['%'])) [] = false
      unfold likeMatch
      rw [if_neg ha1]
    | cons c cs =>
      show likeMatch (a :: (n ++ ['%'])) (c :: cs) = ciStarts (a :: n) (c :: cs)
      unfold likeMatch
      rw [if_neg ha1]
      have hu : (a == '_') = false := beq_eq_false_iff_ne.mpr ha2
      show ((a == '_' || a.toLower == c.toLower) && likeMatch (n ++ ['%']) cs) =
        ((a.toLower == c.toLower) && ciStarts n cs)
      rw [hu, Bool.false_or, hrest cs]

theorem likeMatch_contains :
    ∀ (n : List Char), (∀ c ∈ n, c ≠ '%' ∧ c ≠ '_') →
      ∀ t : List Char, likeMatch ('%' :: (n ++ ['%'])) t = ciSub n t := by
  intro n h t
  show likeMatch ('%' :: (n ++ ['%'])) t = ciSub n t
  unfold likeMatch
  rw [if_pos rfl]
  unfold ciSub
  have hfun : (fun u => likeMatch (n ++ ['%']) u) = (fun u => ciStarts n u) :=
    funext (fun u => likeMatch_plain_percent n h u)
  rw [hfun]

/-- Counterexample to C7 as stated: for the deck list containing the deck
named `"ab"` and the filter string `"_"`, the route returns the deck
(SQL `_` matches any single character) although `"ab"` does not contain
`"_"` as a substring. -/
theorem C7_filter_cex :
    decksRoute dbFilterCex "_" = [⟨1, "ab"⟩] ∧
    ciSub "_".data "ab".data = false :=
  ⟨rfl, rfl⟩

/-- Claim C7 amended: with an empty (or absent) filter string the route
returns all decks, and for every filter string free of the SQL wildcard
characters `%` and `_`, it returns exactly the decks whose name contains
the filter as a case-insensitive substring; filter strings containing
wildcards are instead interpreted as `ILIKE` patterns. -/
theorem C7_filter_amended :
    (∀ s : DB, decksRoute s "" = s.decks) ∧
    (∀ (s : DB) (q : String), q ≠ "" → (∀ c ∈ q.data, c ≠ '%' ∧ c ≠ '_') →
      decksRoute s q = s.decks.filter (fun d => ciSub q.data d.name.data)) := by
  constructor
  · intro s; rfl
  · intro s q hq hw
    unfold decksRoute
    rw [if_neg hq]
    have hfun : (fun d : Deck => likeMatch ('%' :: (q.data ++ ['%'])) d.name.data) =
        (fun d : Deck => ciSub q.data d.name.data) :=
      funext (fun d => likeMatch_contains q.data hw d.name.data)
    rw [hfun]

/-- Witness for C7 amended: the filter `"an"` selects exactly the decks
with a case-insensitive `"an"` substring. -/
theorem C7_filter_amended_witness :
    decksRoute dbFilterW "an" =
      dbFilterW.decks.filter (fun d => ciSub "an".data d.name.data) :=
  C7_filter_amended.2 dbFilterW "an" (by decide) (by decide)

/-! ## Claim C8 -/

/-- Counterexample to C8 as stated: an import request with a missing file
part, an empty filename, or a filename not ending in `".json"` is silently
ignored — the route redirects back to the import page or re-renders the
form, and no failure is reported to the caller. -/
theorem C8_reporting_cex :
    (import_route none emptyDB).1 = ImportResponse.redirectToImportPage ∧
    isFailureResponse (import_route none emptyDB).1 = false ∧
    isFailureResponse
      (import_route (some ("", some ⟨some "D", some []⟩)) emptyDB).1 = false ∧
    isFailureResponse
      (import_route (some ("d.txt", some ⟨some "D", some []⟩)) emptyDB).1 = false := by
  refine ⟨rfl, rfl, rfl, rfl⟩

/-- Claim C8 amended: errors raised while processing a well-named upload
(an unparseable document, or a missing required field) are reported to the
caller as an error message with the store unchanged; but a missing file
part and an empty filename silently redirect back to the import page, and
a filename not ending in `".json"` silently re-renders the form — none of
these three produce a failure response. -/
theorem C8_reporting_amended :
    (∀ s : DB, import_route none s = (ImportResponse.redirectToImportPage, s)) ∧
    (∀ (s : DB) (content : Option DeckDoc),
      import_route (some ("", content)) s = (ImportResponse.redirectToImportPage, s)) ∧
    (∀ (s : DB) (fn : String) (content : Option DeckDoc),
      fn ≠ "" → endsWithStr fn ".json" = false →
      import_route (some (fn, content)) s = (ImportResponse.renderForm, s)) ∧
    (∀ (s : DB) (fn : String), fn ≠ "" → endsWithStr fn ".json" = true →
      import_route (some (fn, none)) s =
        (ImportResponse.errorMessage ImpError.parseFailure, s)) ∧
    (∀ (s : DB) (fn : String) (doc : DeckDoc) (e : ImpError),
      fn ≠ "" → endsWithStr fn ".json" = true → import_core doc s = Except.error e →
      import_route (some (fn, some doc)) s = (ImportResponse.errorMessage e, s)) := by
  refine ⟨fun s => rfl, fun s content => rfl, ?_, ?_, ?_⟩
  · intro s fn content h1 h2
    simp [import_route, h1, h2]
  · intro s fn h1 h2
    simp [import_route, h1, h2]
  · intro s fn doc e h1 h2 h3
    simp [import_route, h1, h2, h3]

/-- Witness for C8 amended: a well-named upload whose document lacks the
`deck_name` key is reported as an error and leaves the store unchanged. -/
theorem C8_reporting_amended_witness :
    import_route (some ("d.json", some ⟨none, some []⟩)) emptyDB =
      (ImportResponse.errorMessage (ImpError.keyMissing "deck_name"), emptyDB) :=
  C8_reporting_amended.2.2.2.2 emptyDB "d.json" ⟨none, some []⟩
    (ImpError.keyMissing "deck_name") (by decide) rfl rfl

/-! ## Claim C2 -/

theorem buildCards_first_err :
    ∀ (pre : List CardDoc) (bad : CardDoc) (rest : List CardDoc),
      (∀ c ∈ pre, c.question.isSome ∧ c.answer.isSome) →
      (bad.question = none ∨ bad.answer = none) →
      buildCards (pre ++ bad :: rest) =
        Except.error (if bad.question = none then ImpError.keyMissing "question"
          else ImpError.keyMissing "answer") := by
  intro pre
  induction pre with
  | nil =>
    intro bad rest _ hbad
    cases hq : bad.question with
    | none => simp [buildCards, hq]
    | some q =>
      have ha : bad.answer = none := by
        rcases hbad with h | h
        · rw [hq] at h; exact absurd h (by simp)
        · exact h
      simp [buildCards, hq, ha]
  | cons c pre ih =>
    intro bad rest hpre hbad
    obtain ⟨hq, ha⟩ := hpre c (List.mem_cons_self c pre)
    obtain ⟨q, hq'⟩ := Option.isSome_iff_exists.mp hq
    obtain ⟨a, ha'⟩ := Option.isSome_iff_exists.mp ha
    have hrest := ih bad rest (fun x hx => hpre x (List.mem_cons_of_mem c hx)) hbad
    simp [buildCards, hq', ha', hrest]

/-- Claim C2: when some card entry of an uploaded document fails
validation — its `question` or `answer` key is missing — the import
persists nothing (the resulting store is the unchanged pre-state) and
reports an error naming the first missing key encountered (the `question`
key is read before the `answer` key of the first bad entry). -/
theorem C2_atomic_import (s : DB) (fn nm : String) (doc : DeckDoc)
    (pre rest : List CardDoc) (bad : CardDoc)
    (hfn1 : fn ≠ "") (hfn2 : endsWithStr fn ".json" = true)
    (hnm : doc.deck_name = some nm)
    (hcs : doc.cards = some (pre ++ bad :: rest))
    (hpre : ∀ c ∈ pre, c.question.isSome ∧ c.answer.isSome)
    (hbad : bad.question = none ∨ bad.answer = none) :
    import_route (some (fn, some doc)) s =
      (ImportResponse.errorMessage
        (if bad.question = none then ImpError.keyMissing "question"
         else ImpError.keyMissing "answer"), s) := by
  have hbc := buildCards_first_err pre bad rest hpre hbad
  simp [import_route, hfn1, hfn2, import_core, hnm, hcs, hbc]

/-- Witness for C2: a two-card upload whose second entry lacks `question`
is rejected with that key reported, and the store stays empty. -/
theorem C2_atomic_import_witness :
    import_route (some ("x.json", some ⟨some "D",
        some [⟨some "q", some "a", none⟩, ⟨none, some "a2", none⟩]⟩)) emptyDB =
      (ImportResponse.errorMessage (ImpError.keyMissing "question"), emptyDB) := by
  have h := C2_atomic_import emptyDB "x.json" "D"
      ⟨some "D", some [⟨some "q", some "a", none⟩, ⟨none, some "a2", none⟩]⟩
      [⟨some "q", some "a", none⟩] [] ⟨none, some "a2", none⟩
      (by decide) rfl rfl rfl (by decide) (Or.inl rfl)
  simpa using h

/-! ## Claim C1 -/

theorem buildCards_wrap : ∀ l : List CardEntry,
    buildCards (l.map (fun t => ⟨some t.question, some t.answer, some t.mastered⟩)) =
      Except.ok l := by
  intro l
  induction l with
  | nil => rfl
  | cons t rest ih => simp [buildCards, ih]

theorem assignIds_spec : ∀ (l : List CardEntry) (k did : Nat),
    (∀ c ∈ assignIds l k did, c.deck_id = did ∧ k ≤ c.id ∧ c.id < k + l.length) ∧
    (assignIds l k did).map cardTriple = l := by
  intro l
  induction l with
  | nil => intro k did; exact ⟨by simp [assignIds], rfl⟩
  | cons t rest ih =>
    intro k did
    obtain ⟨ihmem, ihmap⟩ := ih (k + 1) did
    constructor
    · intro c hc
      rcases List.mem_cons.mp hc with rfl | hmem
      · refine ⟨rfl, Nat.le_refl k, ?_⟩
        show k < k + (t :: rest).length
        simp
      · obtain ⟨h1, h2, h3⟩ := ihmem c hmem
        refine ⟨h1, by omega, ?_⟩
        rw [List.length_cons]
        omega
    · show cardTriple ⟨k, t.question, t.answer, t.mastered, did⟩ ::
        (assignIds rest (k + 1) did).map cardTriple = t :: rest
      rw [ihmap]
      rfl

theorem assignIds_ids_nodup : ∀ (l : List CardEntry) (k did : Nat),
    ((assignIds l k did).map Card.id).Nodup := by
  intro l
  induction l with
  | nil => intro k did; simp [assignIds]
  | cons t rest ih =>
    intro k did
    rw [show assignIds (t :: rest) k did =
      ⟨k, t.question, t.answer, t.mastered, did⟩ :: assignIds rest (k + 1) did from rfl]
    rw [List.map_cons, List.nodup_cons]
    refine ⟨?_, ih (k + 1) did⟩
    intro hmem
    obtain ⟨c, hc, hid⟩ := List.mem_map.mp hmem
    have hidk : Card.id ⟨k, t.question, t.answer, t.mastered, did⟩ = k := rfl
    rw [hidk] at hid
    have := ((assignIds_spec rest (k + 1) did).1 c hc).2.1
    omega

theorem find?_append_none {α : Type} {p : α → Bool} :
    ∀ {l₁ l₂ : List α}, l₁.find? p = none → (l₁ ++ l₂).find? p = l₂.find? p := by
  intro l₁
  induction l₁ with
  | nil => intro l₂ _; rfl
  | cons a t ih =>
    intro l₂ h
    have ha : ¬ p a = true := List.find?_eq_none.mp h a (List.mem_cons_self a t)
    have ht : t.find? p = none :=
      List.find?_eq_none.mpr (fun x hx => List.find?_eq_none.mp h x (List.mem_cons_of_mem a hx))
    rw [List.cons_append, List.find?_cons_of_neg _ ha]
    exact ih ht

theorem import_core_ok (nm : String) (l : List CardEntry) (s : DB) :
    import_core ⟨some nm,
        some (l.map (fun t => ⟨some t.question, some t.answer, some t.mastered⟩))⟩ s =
      Except.ok
        ({ decks := s.decks ++ [⟨s.nextDeckId, nm⟩],
           cards := s.cards ++ assignIds l s.nextCardId s.nextDeckId,
           nextDeckId := s.nextDeckId + 1,
           nextCardId := s.nextCardId + l.length }, s.nextDeckId) := by
  have hb := buildCards_wrap l
  simp [import_core, hb]

/-- Claim C1: importing the export of an existing deck succeeds and yields
a deck with the same name and the same ordered sequence of
(question, answer, mastered) triples, while the new deck id and all new
card ids are fresh — distinct from every existing deck and card id. -/
theorem C1_round_trip (s : DB) (did : Nat) (d : Deck)
    (hwf : WfDB s) (hd : get_deck s did = some d) :
    ∃ e fn s' nid,
      export_deck did s = some (e, fn) ∧
      import_core (exportToDoc e) s = Except.ok (s', nid) ∧
      (∃ d', get_deck s' nid = some d' ∧ d'.name = d.name) ∧
      (deckCards s' nid).map cardTriple = (deckCards s did).map cardTriple ∧
      nid ≠ d.id ∧ nid ∉ s.decks.map Deck.id ∧
      (∀ c ∈ deckCards s' nid, c.id ∉ s.cards.map Card.id) := by
  have hT := assignIds_spec ((deckCards s did).map cardTriple) s.nextCardId s.nextDeckId
  have hold : s.cards.filter (fun c => c.deck_id == s.nextDeckId) = [] := by
    rw [List.filter_eq_nil_iff]
    intro c hc
    obtain ⟨d'', hd'', hdid⟩ := hwf.ownerLives c hc
    have := hwf.deckIdsLt d'' hd''
    simp only [beq_iff_eq]
    omega
  have hnew : (assignIds ((deckCards s did).map cardTriple) s.nextCardId
      s.nextDeckId).filter (fun c => c.deck_id == s.nextDeckId) =
      assignIds ((deckCards s did).map cardTriple) s.nextCardId s.nextDeckId := by
    rw [List.filter_eq_self]
    intro c hc
    have := (hT.1 c hc).1
    simp only [beq_iff_eq]
    omega
  have hfilter : (s.cards ++ assignIds ((deckCards s did).map cardTriple)
      s.nextCardId s.nextDeckId).filter (fun c => c.deck_id == s.nextDeckId) =
      assignIds ((deckCards s did).map cardTriple) s.nextCardId s.nextDeckId := by
    rw [List.filter_append, hold, hnew, List.nil_append]
  have hdmem : d ∈ s.decks := List.mem_of_find?_eq_some hd
  have hdlt := hwf.deckIdsLt d hdmem
  refine ⟨⟨d.name, (deckCards s did).map cardTriple⟩, export_filename d.name,
    { decks := s.decks ++ [⟨s.nextDeckId, d.name⟩],
      cards := s.cards ++
        assignIds ((deckCards s did).map cardTriple) s.nextCardId s.nextDeckId,
      nextDeckId := s.nextDeckId + 1,
      nextCardId := s.nextCardId + ((deckCards s did).map cardTriple).length },
    s.nextDeckId, ?_, ?_, ?_, ?_, ?_, ?_, ?_⟩
  · unfold export_deck
    rw [hd, Option.map_some']
  · exact import_core_ok d.name ((deckCards s did).map cardTriple) s
  · refine ⟨⟨s.nextDeckId, d.name⟩, ?_, rfl⟩
    show (s.decks ++ ([⟨s.nextDeckId, d.name⟩] : List Deck)).find?
      (fun x => x.id == s.nextDeckId) = some (⟨s.nextDeckId, d.name⟩ : Deck)
    have hnone : s.decks.find? (fun x : Deck => x.id == s.nextDeckId) = none := by
      rw [List.find?_eq_none]
      intro x hx
      have := hwf.deckIdsLt x hx
      simp only [beq_iff_eq]
      omega
    rw [find?_append_none hnone]
    exact @List.find?_cons_of_pos Deck (fun x => x.id == s.nextDeckId)
      (⟨s.nextDeckId, d.name⟩ : Deck) [] (by simp)
  · show ((s.cards ++ assignIds ((deckCards s did).map cardTriple) s.nextCardId
        s.nextDeckId).filter (fun c => c.deck_id == s.nextDeckId)).map cardTriple =
      (deckCards s did).map cardTriple
    rw [hfilter]
    exact hT.2
  · omega
  · intro hmem
    obtain ⟨d'', hd'', hid⟩ := List.mem_map.mp hmem
    have := hwf.deckIdsLt d'' hd''
    omega
  · intro c hc hmem
    have hc' : c ∈ (s.cards ++ assignIds ((deckCards s did).map cardTriple)
        s.nextCardId s.nextDeckId).filter (fun c => c.deck_id == s.nextDeckId) := hc
    rw [hfilter] at hc'
    have hge := (hT.1 c hc').2.1
    obtain ⟨c'', hc'', hid⟩ := List.mem_map.mp hmem
    have := hwf.cardIdsLt c'' hc''
    omega

/-- The witness store `dbW` is well-formed. -/
theorem wfDbW : WfDB dbW :=
  ⟨by decide, by decide, by decide, by decide, by decide⟩

/-- Witness for C1: the round trip on the one-deck store `dbW`. -/
theorem C1_round_trip_witness :
    ∃ e fn s' nid,
      export_deck 1 dbW = some (e, fn) ∧
      import_core (exportToDoc e) dbW = Except.ok (s', nid) ∧
      (∃ d', get_deck s' nid = some d' ∧ d'.name = "Spanish") ∧
      (deckCards s' nid).map cardTriple = (deckCards dbW 1).map cardTriple ∧
      nid ≠ 1 ∧ nid ∉ dbW.decks.map Deck.id ∧
      (∀ c ∈ deckCards s' nid, c.id ∉ dbW.cards.map Card.id) :=
  C1_round_trip dbW 1 ⟨1, "Spanish"⟩ wfDbW rfl

/-! ## Claim C4: preservation of well-formedness along every route -/

theorem wf_empty : WfDB emptyDB :=
  ⟨by decide, by decide, by decide, by decide, by decide⟩

theorem wf_create (n : String) (s : DB) (h : WfDB s) : WfDB (create_deck n s).1 := by
  constructor
  · intro d hd
    rcases List.mem_append.mp hd with h1 | h1
    · exact Nat.lt_succ_of_lt (h.deckIdsLt d h1)
    · rw [List.mem_singleton] at h1
      subst h1
      exact Nat.lt_succ_self _
  · intro c hc
    exact h.cardIdsLt c hc
  · intro c hc
    obtain ⟨d, hd, hdid⟩ := h.ownerLives c hc
    exact ⟨d, List.mem_append_left _ hd, hdid⟩
  · show ((s.decks ++ ([⟨s.nextDeckId, n⟩] : List Deck)).map Deck.id).Nodup
    rw [List.map_append, List.nodup_append]
    refine ⟨h.deckIdsNodup, by simp, ?_⟩
    intro a ha hb
    obtain ⟨d, hd, hid⟩ := List.mem_map.mp ha
    have hlt := h.deckIdsLt d hd
    have : a = s.nextDeckId := by simpa using hb
    omega
  · exact h.cardIdsNodup

theorem wf_add (did : Nat) (q a : String) (s : DB) (p : DB × Nat) (h : WfDB s)
    (hp : add_card did q a s = some p) : WfDB p.1 := by
  obtain ⟨d₀, hd₀, hp'⟩ := Option.map_eq_some'.mp hp
  subst hp'
  unfold get_deck at hd₀
  have hdmem : d₀ ∈ s.decks := List.mem_of_find?_eq_some hd₀
  have hdid : d₀.id = did := by
    simpa using @List.find?_some _ (fun x : Deck => x.id == did) d₀ s.decks hd₀
  constructor
  · intro d hd
    exact h.deckIdsLt d hd
  · intro c hc
    rcases List.mem_append.mp hc with h1 | h1
    · exact Nat.lt_succ_of_lt (h.cardIdsLt c h1)
    · rw [List.mem_singleton] at h1
      subst h1
      exact Nat.lt_succ_self _
  · intro c hc
    rcases List.mem_append.mp hc with h1 | h1
    · exact h.ownerLives c h1
    · rw [List.mem_singleton] at h1
      subst h1
      exact ⟨d₀, hdmem, hdid⟩
  · exact h.deckIdsNodup
  · show ((s.cards ++ ([⟨s.nextCardId, q, a, false, did⟩] : List Card)).map Card.id).Nodup
    rw [List.map_append, List.nodup_append]
    refine ⟨h.cardIdsNodup, by simp, ?_⟩
    intro x hx hb
    obtain ⟨c, hc, hid⟩ := List.mem_map.mp hx
    have hlt := h.cardIdsLt c hc
    have : x = s.nextCardId := by simpa using hb
    omega

theorem wf_map_cards (s : DB) (f : Card → Card)
    (hid : ∀ c, (f c).id = c.id) (hdk : ∀ c, (f c).deck_id = c.deck_id)
    (h : WfDB s) : WfDB { s with cards := s.cards.map f } := by
  constructor
  · intro d hd
    exact h.deckIdsLt d hd
  · intro c hc
    obtain ⟨c₀, hc₀, hc'⟩ := List.mem_map.mp hc
    subst hc'
    rw [hid]
    exact h.cardIdsLt c₀ hc₀
  · intro c hc
    obtain ⟨c₀, hc₀, hc'⟩ := List.mem_map.mp hc
    subst hc'
    rw [hdk]
    exact h.ownerLives c₀ hc₀
  · exact h.deckIdsNodup
  · show ((s.cards.map f).map Card.id).Nodup
    rw [map_map_id_eq hid]
    exact h.cardIdsNodup

theorem wf_edit (cid : Nat) (q a : String) (s t : DB) (h : WfDB s)
    (ht : edit_card cid q a s = some t) : WfDB t := by
  obtain ⟨c₀, _, ht'⟩ := Option.map_eq_some'.mp ht
  subst ht'
  apply wf_map_cards s _ _ _ h
  · intro c
    show (if c.id == cid then ({ c with question := q, answer := a } : Card) else c).id = c.id
    split <;> rfl
  · intro c
    show (if c.id == cid then ({ c with question := q, answer := a } : Card) else c).deck_id
      = c.deck_id
    split <;> rfl

theorem wf_toggle (cid : Nat) (s t : DB) (h : WfDB s)
    (ht : toggle_mastered cid s = some t) : WfDB t := by
  obtain ⟨c₀, _, ht'⟩ := Option.map_eq_some'.mp ht
  subst ht'
  exact wf_map_cards s (flipAt cid) (flipAt_id cid) (flipAt_deck cid) h

theorem wf_delete_deck (did : Nat) (s t : DB) (h : WfDB s)
    (ht : delete_deck did s = some t) : WfDB t := by
  obtain ⟨d₀, _, ht'⟩ := Option.map_eq_some'.mp ht
  subst ht'
  constructor
  · intro d hd
    exact h.deckIdsLt d (List.mem_filter.mp hd).1
  · intro c hc
    exact h.cardIdsLt c (List.mem_filter.mp hc).1
  · intro c hc
    obtain ⟨hc', hcd⟩ := List.mem_filter.mp hc
    obtain ⟨d, hd, hdid⟩ := h.ownerLives c hc'
    refine ⟨d, List.mem_filter.mpr ⟨hd, ?_⟩, hdid⟩
    have hne : c.deck_id ≠ did := by simpa using hcd
    simp only [bne_iff_ne, ne_eq, hdid]
    exact hne
  · exact List.Nodup.sublist (List.Sublist.map _ (List.filter_sublist _)) h.deckIdsNodup
  · exact List.Nodup.sublist (List.Sublist.map _ (List.filter_sublist _)) h.cardIdsNodup

theorem wf_delete_card (cid : Nat) (s t : DB) (h : WfDB s)
    (ht : delete_card cid s = some t) : WfDB t := by
  obtain ⟨c₀, _, ht'⟩ := Option.map_eq_some'.mp ht
  subst ht'
  constructor
  · intro d hd
    exact h.deckIdsLt d hd
  · intro c hc
    exact h.cardIdsLt c (List.mem_filter.mp hc).1
  · intro c hc
    exact h.ownerLives c (List.mem_filter.mp hc).1
  · exact h.deckIdsNodup
  · exact List.Nodup.sublist (List.Sublist.map _ (List.filter_sublist _)) h.cardIdsNodup

theorem wf_import_core (doc : DeckDoc) (s : DB) (p : DB × Nat) (h : WfDB s)
    (hp : import_core doc s = Except.ok p) : WfDB p.1 := by
  obtain ⟨dn, dc⟩ := doc
  cases dn with
  | none => simp [import_core] at hp
  | some nm =>
    cases dc with
    | none => simp [import_core] at hp
    | some cs =>
      cases hbc : buildCards cs with
      | error e => simp [import_core, hbc] at hp
      | ok l =>
        simp only [import_core, hbc, Except.ok.injEq] at hp
        subst hp
        constructor
        · intro d hd
          rcases List.mem_append.mp hd with h1 | h1
          · exact Nat.lt_succ_of_lt (h.deckIdsLt d h1)
          · rw [List.mem_singleton] at h1
            subst h1
            exact Nat.lt_succ_self _
        · intro c hc
          show c.id < s.nextCardId + l.length
          rcases List.mem_append.mp hc with h1 | h1
          · have := h.cardIdsLt c h1
            omega
          · have := ((assignIds_spec l s.nextCardId s.nextDeckId).1 c h1).2.2
            omega
        · intro c hc
          rcases List.mem_append.mp hc with h1 | h1
          · obtain ⟨d, hd, hdid⟩ := h.ownerLives c h1
            exact ⟨d, List.mem_append_left _ hd, hdid⟩
          · have hdk := ((assignIds_spec l s.nextCardId s.nextDeckId).1 c h1).1
            refine ⟨(⟨s.nextDeckId, nm⟩ : Deck), List.mem_append_right _ (by simp), ?_⟩
            rw [hdk]
        · show ((s.decks ++ ([⟨s.nextDeckId, nm⟩] : List Deck)).map Deck.id).Nodup
          rw [List.map_append, List.nodup_append]
          refine ⟨h.deckIdsNodup, by simp, ?_⟩
          intro x hx hb
          obtain ⟨d, hd, hid⟩ := List.mem_map.mp hx
          have hlt := h.deckIdsLt d hd
          have : x = s.nextDeckId := by simpa using hb
          omega
        · show ((s.cards ++ assignIds l s.nextCardId s.nextDeckId).map Card.id).Nodup
          rw [List.map_append, List.nodup_append]
          refine ⟨h.cardIdsNodup, assignIds_ids_nodup l s.nextCardId s.nextDeckId, ?_⟩
          intro x hx hb
          obtain ⟨c, hc, hid⟩ := List.mem_map.mp hx
          have hlt := h.cardIdsLt c hc
          obtain ⟨c', hc', hid'⟩ := List.mem_map.mp hb
          have hge := ((assignIds_spec l s.nextCardId s.nextDeckId).1 c' hc').2.1
          omega

theorem wf_import_route (req : Option (String × Option DeckDoc)) (s : DB)
    (h : WfDB s) : WfDB (import_route req s).2 := by
  rcases req with _ | ⟨fn, content⟩
  · exact h
  · show WfDB (if fn = "" then (ImportResponse.redirectToImportPage, s)
      else if endsWithStr fn ".json" = true then
        match content with
        | none => (ImportResponse.errorMessage ImpError.parseFailure, s)
        | some doc =>
          match import_core doc s with
          | Except.ok (s', _) => (ImportResponse.redirectToDecks, s')
          | Except.error e => (ImportResponse.errorMessage e, s)
      else (ImportResponse.renderForm, s)).2
    by_cases h1 : fn = ""
    · rw [if_pos h1]; exact h
    · rw [if_neg h1]
      by_cases h2 : endsWithStr fn ".json" = true
      · rw [if_pos h2]
        rcases content with _ | doc
        · exact h
        · show WfDB (match import_core doc s with
            | Except.ok (s', _) => (ImportResponse.redirectToDecks, s')
            | Except.error e => (ImportResponse.errorMessage e, s)).2
          cases hic : import_core doc s with
          | ok p => exact wf_import_core doc s p h hic
          | error e => exact h
      · rw [if_neg h2]; exact h

theorem wf_applyOp (op : Op) (s : DB) (h : WfDB s) : WfDB (applyOp op s) := by
  cases op with
  | createDeck n => exact wf_create n s h
  | addCard did q a =>
    show WfDB (match add_card did q a s with | some p => p.1 | none => s)
    cases hp : add_card did q a s with
    | none => exact h
    | some p => exact wf_add did q a s p h hp
  | editCard cid q a =>
    show WfDB (match edit_card cid q a s with | some t => t | none => s)
    cases hp : edit_card cid q a s with
    | none => exact h
    | some t => exact wf_edit cid q a s t h hp
  | toggleMastered cid =>
    show WfDB (match toggle_mastered cid s with | some t => t | none => s)
    cases hp : toggle_mastered cid s with
    | none => exact h
    | some t => exact wf_toggle cid s t h hp
  | deleteDeck did =>
    show WfDB (match delete_deck did s with | some t => t | none => s)
    cases hp : delete_deck did s with
    | none => exact h
    | some t => exact wf_delete_deck did s t h hp
  | deleteCard cid =>
    show WfDB (match delete_card cid s with | some t => t | none => s)
    cases hp : delete_card cid s with
    | none => exact h
    | some t => exact wf_delete_card cid s t h hp
  | importReq req => exact wf_import_route req s h

theorem wf_reachable : ∀ {s : DB}, Reachable s → WfDB s := by
  intro s h
  induction h with
  | init => exact wf_empty
  | step op _ ih => exact wf_applyOp op _ ih

/-- Claim C4: deleting a deck cascades — afterwards the deck lookup and
the lookup of every card that belonged to it return nothing — and in every
reachable store state every card's owning deck exists (no orphans). -/
theorem C4_cascade_delete :
    (∀ (s : DB) (did : Nat) (t : DB), Reachable s → delete_deck did s = some t →
      get_deck t did = none ∧
      ∀ c ∈ s.cards, c.deck_id = did → get_card t c.id = none) ∧
    (∀ s : DB, Reachable s → ∀ c ∈ s.cards, ∃ d ∈ s.decks, d.id = c.deck_id) := by
  constructor
  · intro s did t hr ht
    have hwf := wf_reachable hr
    obtain ⟨d₀, _, ht'⟩ := Option.map_eq_some'.mp ht
    subst ht'
    constructor
    · show (s.decks.filter (fun d => d.id != did)).find? (fun d => d.id == did) = none
      rw [List.find?_eq_none]
      intro x hx
      have := (List.mem_filter.mp hx).2
      simpa using this
    · intro c hc hcd
      show (s.cards.filter (fun x => x.deck_id != did)).find? (fun x => x.id == c.id) = none
      rw [List.find?_eq_none]
      intro x hx
      obtain ⟨hx', hxd⟩ := List.mem_filter.mp hx
      intro hxc
      have hxc' : x.id = c.id := by simpa using hxc
      have hxeq : x = c := List.inj_on_of_nodup_map hwf.cardIdsNodup hx' hc hxc'
      subst hxeq
      rw [hcd] at hxd
      simp at hxd
  · intro s hr
    exact (wf_reachable hr).ownerLives

/-- Witness for C4: create a deck, add a card, delete the deck — both
lookups then miss. -/
theorem C4_cascade_delete_witness :
    get_deck (⟨[], [], 2, 2⟩ : DB) 1 = none ∧
    get_card (⟨[], [], 2, 2⟩ : DB) 1 = none := by
  have h := C4_cascade_delete.1
    (applyOp (Op.addCard 1 "hola" "hello") (applyOp (Op.createDeck "Spanish") emptyDB))
    1 ⟨[], [], 2, 2⟩
    (Reachable.step _ (Reachable.step _ Reachable.init)) rfl
  refine ⟨h.1, ?_⟩
  have h2 := h.2 ⟨1, "hola", "hello", false, 1⟩ (by decide) rfl
  exact h2

end Flashcard
